import Mathlib

/-!
Verification of the Personal-Finance transaction categorizer (`src/main.py`).

The development shallowly embeds the data model and the operations of
`main.py`: the category store (`st.session_state.categories`, a Python dict
from category name to keyword list, modelled as an insertion-ordered
association list), the amount-cleanup pipeline of `load_transactions`,
`categorize_transactions`, `add_keyword_to_category`, the inline
add-category logic of `main`, the JSON persistence (`save_categories` /
`json.load`), and the expense-summary aggregation
(`groupby("Category").sum()` followed by `sort_values(ascending=False)`).

Amounts are modelled as exact rationals extended with the IEEE-754 special
values NaN and ±infinity.  Every numeric literal appearing in the spec's
examples (1234.50, 500.00, 100, 50, 30, 0) is exactly representable in
binary64, so no claim below depends on rounding.
-/

namespace PersonalFinance

/-- A float value as produced by Python `float(...)`: a finite number
(modelled exactly as a rational), NaN, or a signed infinity. -/
inductive Amount where
  | num (q : ℚ)
  | nan
  | pinf
  | ninf
deriving DecidableEq, Repr

/-- Python `str.strip()`: drop whitespace from both ends. -/
def pyStrip (cs : List Char) : List Char :=
  ((cs.dropWhile Char.isWhitespace).reverse.dropWhile Char.isWhitespace).reverse

/-- Python `str.lower()` on the characters. -/
def pyLower (cs : List Char) : List Char := cs.map Char.toLower

/-- Python `s.lower().strip()`, the cleanup both narrations and keywords
get in `categorize_transactions`. -/
def pyLowerStrip (s : String) : String := String.mk (pyStrip (pyLower s.data))

/-- Python `s.strip()` as a string-to-string function. -/
def pyStripStr (s : String) : String := String.mk (pyStrip s.data)

/-- Digit string to natural number, e.g. `['1','2'] ↦ 12`. -/
def digitsToNat (cs : List Char) : Nat :=
  cs.foldl (fun a c => a * 10 + (c.toNat - 48)) 0

/-- Python `float` mantissa grammar: `digits [. [digits]]` or `. digits`
(at least one digit overall).  Returns the value as a numerator together
with the power-of-ten exponent of its denominator, so the exact value is
`numerator / 10 ^ exponent`.  (Python also allows grouping underscores
between digits; no value in this repository or its spec uses them, so
they are not modelled.) -/
def parseMantissa (cs : List Char) : Option (Nat × Nat) :=
  let (intPart, rest) := cs.span (·.isDigit)
  match rest with
  | [] => if intPart.isEmpty then none else some (digitsToNat intPart, 0)
  | '.' :: frac =>
      if frac.all (·.isDigit) then
        if intPart.isEmpty ∧ frac.isEmpty then none
        else some (digitsToNat intPart * 10 ^ frac.length + digitsToNat frac, frac.length)
      else none
  | _ => none

/-- Mantissa followed by an optional exponent part `[e|E [sign] digits]`.
Returns the exact rational value of the decimal literal. -/
def parseNumber (cs : List Char) : Option ℚ :=
  let (mant, rest) := cs.span (fun c => c ≠ 'e' ∧ c ≠ 'E')
  match rest with
  | [] => (parseMantissa mant).map (fun p => mkRat p.1 (10 ^ p.2))
  | _ :: expPart =>
      let (eneg, edigits) :=
        match expPart with
        | '+' :: t => (false, t)
        | '-' :: t => (true, t)
        | t => (false, t)
      if edigits.isEmpty ∨ ¬ edigits.all (·.isDigit) then none
      else
        (parseMantissa mant).map (fun p =>
          if eneg then mkRat p.1 (10 ^ (p.2 + digitsToNat edigits))
          else mkRat (p.1 * 10 ^ digitsToNat edigits) (10 ^ p.2))

/-- Embedding of Python `float(s)`: strip surrounding whitespace, optional
sign, then either `nan`/`inf`/`infinity` (case-insensitive) or a decimal
number with optional exponent.  `none` models a raised `ValueError`. -/
def pyFloat (s : String) : Option Amount :=
  let cs := pyStrip s.data
  let (neg, body) :=
    match cs with
    | '+' :: rest => (false, rest)
    | '-' :: rest => (true, rest)
    | _ => (false, cs)
  let low := pyLower body
  if low = "nan".data then some .nan
  else if low = "inf".data ∨ low = "infinity".data then
    some (if neg then .ninf else .pinf)
  else (parseNumber body).map (fun q => .num (if neg then -q else q))

/-- `Series.str.replace(",", "")`: drop every comma of the string. -/
def removeCommas (s : String) : String :=
  String.mk (s.data.filter (fun c => c ≠ ','))

/-- The amount-cleanup pipeline of `load_transactions` applied to one
textual cell value (the value after `astype(str)`):
`.str.replace(",", "")` then `.replace(["", "nan", "NaN"], 0)` then
`.astype(float)`.  `none` models the pipeline raising (caught by the
surrounding `try`, which aborts the load). -/
def cleanAmount (s : String) : Option Amount :=
  let s1 := removeCommas s
  if s1 = "" ∨ s1 = "nan" ∨ s1 = "NaN" then some (.num 0)
  else pyFloat s1

/-- A normalized transaction row of the loaded table: the `Date`,
`Narration`, `Withdrawal Amt.`, `Deposit Amt.` and `Category` columns.
The date is kept as its raw cell text; no claim depends on date parsing. -/
structure Row where
  date : String
  narration : String
  withdrawal : Amount
  deposit : Amount
  category : String
deriving DecidableEq, Repr

/-- The category store `st.session_state.categories`: a Python dict from
category name to list of keyword strings, modelled as an insertion-ordered
association list (Python dicts preserve insertion order and have unique
keys). -/
abbrev CatStore := List (String × List String)

/-- The key set of the store, in insertion order (`dict.keys()`). -/
def catKeys (m : CatStore) : List String := m.map Prod.fst

/-- Python dict value update `m[k] = v` for an existing key: the entry
keeps its position, its value is replaced. -/
def setCat (m : CatStore) (k : String) (v : List String) : CatStore :=
  m.map (fun p => if p.1 = k then (p.1, v) else p)

/-- `row["Narration"].lower().strip()` — the cleaned narration used for
matching (Python lowercases first, then strips). -/
def cleanNarration (s : String) : String := pyLowerStrip s

/-- The inner row loop of `categorize_transactions` for one category:
`for idx, row in df.iterrows(): if details in lowered_keywords:
df.at[idx, "Category"] = category`. -/
def applyCategory (c : String) (kws : List String) (rows : List Row) : List Row :=
  let lowered := kws.map pyLowerStrip
  rows.map (fun r =>
    if cleanNarration r.narration ∈ lowered then { r with category := c } else r)

/-- One step of the outer category loop, including the
`if category == "Uncategorized" or not keywords: continue` guard. -/
def stepCats (rs : List Row) (p : String × List String) : List Row :=
  if p.1 = "Uncategorized" ∨ p.2 = [] then rs else applyCategory p.1 p.2 rs

/-- `categorize_transactions(df)`: reset every row's category to
`"Uncategorized"`, then iterate the categories of the store in their
stored (insertion) order, overwriting the category of every row whose
cleaned narration equals one of the category's cleaned keywords. -/
def categorize_transactions (cats : CatStore) (rows : List Row) : List Row :=
  cats.foldl stepCats (rows.map (fun r => { r with category := "Uncategorized" }))

/-- Per-row view of one step of the category loop: the category a row
holds after the loop body for category `p` ran, given it held `acc`
before. -/
def stepAssign (narr : String) (acc : String) (p : String × List String) : String :=
  if p.1 ≠ "Uncategorized" ∧ p.2 ≠ [] ∧
      cleanNarration narr ∈ p.2.map pyLowerStrip then p.1 else acc

/-- The category `categorize_transactions` ends up assigning to a row with
the given narration: the fold overwrites on every match, so the LAST
matching category in store order wins. -/
def assignedCategory (cats : CatStore) (narr : String) : String :=
  cats.foldl (stepAssign narr) "Uncategorized"

/-- A JSON document, the content of `categories.json`. -/
inductive Json where
  | null
  | bool (b : Bool)
  | num (q : ℚ)
  | str (s : String)
  | arr (elems : List Json)
  | obj (fields : List (String × Json))

/-- `json.dump(st.session_state.categories, f)`: the document written by
`save_categories` — an object whose fields are the categories, each value
an array of keyword strings. -/
def encodeStore (m : CatStore) : Json :=
  .obj (m.map (fun p => (p.1, .arr (p.2.map .str))))

/-- Reading back one keyword array from the document. -/
def decodeStrings (j : Json) : Option (List String) :=
  match j with
  | .arr es => es.mapM (fun e => match e with | .str s => some s | _ => none)
  | _ => none

/-- `json.load(f)` interpreted as a category store: the document must be
an object of string arrays; anything else is not a store. -/
def decodeStore (j : Json) : Option CatStore :=
  match j with
  | .obj kvs => kvs.mapM (fun kv => (decodeStrings kv.2).map (fun ws => (kv.1, ws)))
  | _ => none

/-- `save_categories()`: the document that ends up in `categories.json`. -/
def save_categories (m : CatStore) : Json := encodeStore m

/-- The `json.load` at startup: reads `categories.json` back into
`st.session_state.categories`. -/
def load_categories (j : Json) : Option CatStore := decodeStore j

/-- Error raised by a store mutation: Python `KeyError` from
`st.session_state.categories[category]` on a missing key, or the spec's
abstract `InvalidInput`. -/
inductive StoreErr where
  | keyError
  | invalidInput
deriving DecidableEq, Repr

/-- The process state the store mutations touch: the in-memory dict
`st.session_state.categories` and the persisted `categories.json`. -/
structure PState where
  categories : CatStore
  disk : Json

/-- `add_keyword_to_category(category, keyword)`:
`keyword = keyword.strip()`; then
`if keyword and keyword not in st.session_state.categories[category]:`
append, `save_categories()`, return `True`; else return `False`.
Python's `and` short-circuits: a falsy (empty) stripped keyword returns
`False` before the dict subscript runs, so no `KeyError` can occur then.
The first component of the result is the state after the call (unchanged
when an exception propagates). -/
def add_keyword_to_category (category keyword : String) (st : PState) :
    PState × Except StoreErr Bool :=
  let k := pyStripStr keyword
  if k = "" then (st, .ok false)
  else
    match List.lookup category st.categories with
    | none => (st, .error .keyError)
    | some kws =>
        if k ∈ kws then (st, .ok false)
        else
          let cats := setCat st.categories category (kws ++ [k])
          ({ categories := cats, disk := save_categories cats }, .ok true)

/-- The inline add-category logic of `main` (lines 110–117):
`if add_button and new_category:` then
`if new_category not in st.session_state.categories:` insert with `[]`,
`save_categories()`, `st.rerun()`.  The boolean reports whether the
insertion (and rerun) occurred; an empty or already-present name is
silently skipped — no exception is raised. -/
def add_category (name : String) (st : PState) : PState × Bool :=
  if name = "" then (st, false)
  else if name ∈ catKeys st.categories then (st, false)
  else
    let cats := st.categories ++ [(name, [])]
    ({ categories := cats, disk := save_categories cats }, true)

/-- Follows the spec's words, for comparison with `add_category` (the
definition from the source): "`add_category(name)`: fails with
`InvalidInput` if name is empty or already present; otherwise inserts
name with an empty keyword set and persists. Returns whether the
insertion occurred." -/
def add_category_contract (name : String) (st : PState) :
    Except StoreErr (PState × Bool) :=
  if name = "" ∨ name ∈ catKeys st.categories then .error .invalidInput
  else
    let cats := st.categories ++ [(name, [])]
    .ok ({ categories := cats, disk := save_categories cats }, true)

/-- Rational addition written through `mkRat` so that it evaluates inside
the kernel; `ratAdd_eq` below proves it is ordinary addition on `ℚ`. -/
def ratAdd (a b : ℚ) : ℚ := mkRat (a.num * b.den + b.num * a.den) (a.den * b.den)

theorem ratAdd_eq (a b : ℚ) : ratAdd a b = a + b := (Rat.add_def' a b).symm

/-- IEEE-754 addition on the extended values: NaN propagates, opposite
infinities give NaN, an infinity absorbs any finite value. -/
def amtAdd : Amount → Amount → Amount
  | .nan, _ => .nan
  | _, .nan => .nan
  | .pinf, .ninf => .nan
  | .ninf, .pinf => .nan
  | .pinf, _ => .pinf
  | _, .pinf => .pinf
  | .ninf, _ => .ninf
  | _, .ninf => .ninf
  | .num a, .num b => .num (ratAdd a b)

/-- Pandas `Series.sum()` with its default `skipna=True`: NaN entries are
dropped, the rest are added starting from `0`. -/
def sumColumn (amounts : List Amount) : Amount :=
  (amounts.filter (fun a => a ≠ Amount.nan)).foldl amtAdd (.num 0)

/-- The distinct values of a list, first occurrence kept. -/
def dedupKeys (l : List String) : List String :=
  l.foldl (fun acc x => if x ∈ acc then acc else acc ++ [x]) []

/-- Lexicographic comparison of character lists by code point — the order
Python compares strings with and pandas sorts group keys by. -/
def charListLe : List Char → List Char → Bool
  | [], _ => true
  | _ :: _, [] => false
  | a :: as, b :: bs =>
      if a < b then true else if b < a then false else charListLe as bs

/-- The string order used for the group keys. -/
def strLe (a b : String) : Prop := charListLe a.data b.data = true

instance : DecidableRel strLe := fun a b => by
  unfold strLe; exact inferInstance

/-- `df.groupby("Category")[amount_column].sum()`: the distinct category
values sorted ascending (pandas `groupby` sorts group keys), each paired
with the sum of the chosen amount column over its rows. -/
def groupTotals (rows : List Row) (amt : Row → Amount) : List (String × Amount) :=
  ((dedupKeys (rows.map Row.category)).insertionSort strLe).map
    (fun c => (c, sumColumn ((rows.filter (fun r => r.category = c)).map amt)))

/-- Sort key embedding the descending order pandas `sort_values` uses on a
float column with `na_position="last"`: +inf first, then finite values by
numeric value, then −inf, with NaN last. -/
def amtKey : Amount → Nat × ℚ
  | .nan => (0, 0)
  | .ninf => (1, 0)
  | .num q => (2, q)
  | .pinf => (3, 0)

/-- `a` sorts no later than `b` in the descending summary: `b`'s key is
lexicographically at most `a`'s. -/
def totalsDesc (a b : String × Amount) : Prop :=
  (amtKey b.2).1 < (amtKey a.2).1 ∨
    ((amtKey b.2).1 = (amtKey a.2).1 ∧ (amtKey b.2).2 ≤ (amtKey a.2).2)

instance : DecidableRel totalsDesc := fun _ _ => by
  unfold totalsDesc; exact inferInstance

instance : IsTotal (String × Amount) totalsDesc where
  total a b := by
    unfold totalsDesc
    rcases Nat.lt_trichotomy (amtKey a.2).1 (amtKey b.2).1 with h | h | h
    · exact Or.inr (Or.inl h)
    · rcases le_total (amtKey a.2).2 (amtKey b.2).2 with h2 | h2
      · exact Or.inr (Or.inr ⟨h, h2⟩)
      · exact Or.inl (Or.inr ⟨h.symm, h2⟩)
    · exact Or.inl (Or.inl h)

instance : IsTrans (String × Amount) totalsDesc where
  trans a b c hab hbc := by
    unfold totalsDesc at *
    rcases hab with h1 | ⟨h1, h1'⟩ <;> rcases hbc with h2 | ⟨h2, h2'⟩
    · exact Or.inl (h2.trans h1)
    · exact Or.inl (h2 ▸ h1)
    · exact Or.inl (h1 ▸ h2)
    · exact Or.inr ⟨h2.trans h1, h2'.trans h1'⟩

/-- `category_totals.sort_values(amount_column, ascending=False)` applied
to the grouped totals: the per-category sums ordered by total,
descending.  This is the expense/credit summary of `main`
(lines 157–158 and 217–218). -/
def summarize (rows : List Row) (amt : Row → Amount) : List (String × Amount) :=
  (groupTotals rows amt).insertionSort totalsDesc

/-! ### Helper lemmas -/

lemma stepAssign_of_guard {p : String × List String}
    (hg : p.1 = "Uncategorized" ∨ p.2 = []) (narr acc : String) :
    stepAssign narr acc p = acc := by
  unfold stepAssign
  rcases hg with h | h <;> simp [h]

lemma stepCats_of_guard {p : String × List String}
    (hg : p.1 = "Uncategorized" ∨ p.2 = []) (rs : List Row) :
    stepCats rs p = rs := by
  unfold stepCats
  exact if_pos hg

/-- The category-major double loop of `categorize_transactions` computed
row-wise: folding the categories over a table whose rows carry categories
`f r` rewrites each row's category to the fold of the per-row step. -/
lemma foldl_stepCats_map (cats : CatStore) (rows : List Row) (f : Row → String) :
    cats.foldl stepCats (rows.map (fun r => { r with category := f r })) =
      rows.map (fun r => { r with category := cats.foldl (stepAssign r.narration) (f r) }) := by
  induction cats generalizing f with
  | nil => simp
  | cons p cats ih =>
      have hstep : stepCats (rows.map (fun r => { r with category := f r })) p =
          rows.map (fun r => { r with category := stepAssign r.narration (f r) p }) := by
        by_cases hg : p.1 = "Uncategorized" ∨ p.2 = []
        · rw [stepCats_of_guard hg]
          congr 1
          funext r
          rw [stepAssign_of_guard hg]
        · push_neg at hg
          rw [stepCats, if_neg (by push_neg; exact hg)]
          unfold applyCategory
          rw [List.map_map]
          congr 1
          funext r
          simp only [Function.comp_apply]
          by_cases hm : cleanNarration r.narration ∈ p.2.map pyLowerStrip
          · simp [hm, stepAssign, hg.1, hg.2]
          · simp [hm, stepAssign, hg.1, hg.2]
      rw [List.foldl_cons, hstep, ih (fun r => stepAssign r.narration (f r) p)]
      simp only [List.foldl_cons]

/-- Row-wise characterization of `categorize_transactions`. -/
lemma categorize_eq (cats : CatStore) (rows : List Row) :
    categorize_transactions cats rows =
      rows.map (fun r => { r with category := assignedCategory cats r.narration }) := by
  unfold categorize_transactions assignedCategory
  exact foldl_stepCats_map cats rows (fun _ => "Uncategorized")

/-- The per-row fold either keeps its accumulator or lands on a key of
the folded categories. -/
lemma foldl_stepAssign_mem (narr : String) :
    ∀ (cats : CatStore) (acc : String),
      cats.foldl (stepAssign narr) acc = acc ∨
        cats.foldl (stepAssign narr) acc ∈ cats.map Prod.fst := by
  intro cats
  induction cats with
  | nil => exact fun acc => Or.inl rfl
  | cons p cats ih =>
      intro acc
      rw [List.foldl_cons]
      rcases ih (stepAssign narr acc p) with h | h
      · rw [h]
        unfold stepAssign
        split
        · exact Or.inr (by simp)
        · exact Or.inl rfl
      · exact Or.inr (List.mem_cons_of_mem _ h)

lemma assignedCategory_mem (cats : CatStore) (narr : String) :
    assignedCategory cats narr = "Uncategorized" ∨
      assignedCategory cats narr ∈ cats.map Prod.fst :=
  foldl_stepAssign_mem narr cats "Uncategorized"

lemma decodeStrings_encode (ws : List String) :
    decodeStrings (.arr (ws.map .str)) = some ws := by
  unfold decodeStrings
  induction ws with
  | nil => rfl
  | cons w ws ih =>
      simp only [List.map_cons, List.mapM_cons] at *
      rw [ih]
      rfl

lemma decodeStore_encodeStore (m : CatStore) :
    decodeStore (encodeStore m) = some m := by
  unfold decodeStore encodeStore
  induction m with
  | nil => rfl
  | cons p m ih =>
      simp only [List.map_cons, List.mapM_cons] at *
      rw [decodeStrings_encode, ih]
      rfl

/-- After replacing the value at an existing key, looking the key up
finds the new value. -/
lemma lookup_setCat (m : CatStore) (k : String) (v ws : List String)
    (h : List.lookup k m = some ws) :
    List.lookup k (setCat m k v) = some v := by
  induction m with
  | nil => simp at h
  | cons p m ih =>
      obtain ⟨a, b⟩ := p
      by_cases hk : a = k
      · subst hk
        simp only [setCat, List.map_cons]
        simp [List.lookup]
      · have hbeq : (k == a) = false := by
          simp [Ne.symm hk]
        simp only [List.lookup, hbeq] at h
        have ih' := ih h
        simp only [setCat, List.map_cons] at ih' ⊢
        rw [if_neg hk]
        simp only [List.lookup, hbeq]
        exact ih'

/-! ### Concrete fixtures used by counterexamples and witnesses -/

/-- A sample freshly loaded transaction row. -/
def r0 : Row :=
  { date := "01/04/23", narration := "amazon", withdrawal := .num 500,
    deposit := .num 0, category := "Uncategorized" }

/-- A store in which two categories share the keyword `"amazon"`. -/
def catsShared : CatStore := [("Food", ["amazon"]), ("Shopping", ["amazon"])]

/-- A store with one real category besides `"Uncategorized"`. -/
def cats0 : CatStore := [("Uncategorized", []), ("Food", ["amazon"])]

/-- A freshly persisted state whose store has only `"Uncategorized"`. -/
def stDefault : PState :=
  { categories := [("Uncategorized", [])],
    disk := save_categories [("Uncategorized", [])] }

/-- A persisted state whose store holds `"Uncategorized"` and an empty
`"Food"` category. -/
def stFood : PState :=
  { categories := [("Uncategorized", []), ("Food", [])],
    disk := save_categories [("Uncategorized", []), ("Food", [])] }

/-- The spec's aggregation example: amounts 100 and 50 in `"Food"`,
30 in `"Transport"`. -/
def ex8Rows : List Row :=
  [{ date := "01/04/23", narration := "a", withdrawal := .num 100,
     deposit := .num 0, category := "Food" },
   { date := "02/04/23", narration := "b", withdrawal := .num 50,
     deposit := .num 0, category := "Food" },
   { date := "03/04/23", narration := "c", withdrawal := .num 30,
     deposit := .num 0, category := "Transport" }]

/-! ### Claim theorems -/

/-- C1, counterexample.  The claim says the first matching category in
store order wins and later categories do not override an already-assigned
match.  With the keyword `"amazon"` in both `"Food"` (first) and
`"Shopping"` (second), the row with narration `"amazon"` ends up in
`"Shopping"`: the loop in `categorize_transactions` has no
already-assigned check, so the later category overrides the earlier
match. -/
theorem C1_counterexample :
    (categorize_transactions catsShared [r0]).map Row.category = ["Shopping"] ∧
    (categorize_transactions catsShared [r0]).map Row.category ≠ ["Food"] := by
  constructor
  · decide
  · decide

/-- C1, amended: categories are evaluated in their stored iteration order
and the LAST matching category wins — every row's final category is the
per-row left fold `assignedCategory`, and appending one more category to
the store overrides the previous assignment whenever the new category
matches. -/
theorem C1_last_match_wins :
    (∀ (cats : CatStore) (rows : List Row),
        (categorize_transactions cats rows).map Row.category =
          rows.map (fun r => assignedCategory cats r.narration)) ∧
    (∀ (cats : CatStore) (p : String × List String) (narr : String),
        assignedCategory (cats ++ [p]) narr =
          if p.1 ≠ "Uncategorized" ∧ p.2 ≠ [] ∧
              cleanNarration narr ∈ p.2.map pyLowerStrip
          then p.1 else assignedCategory cats narr) := by
  constructor
  · intro cats rows
    rw [categorize_eq, List.map_map]
    rfl
  · intro cats p narr
    rw [assignedCategory, List.foldl_append]
    rfl

/-- C2, counterexample.  The claim says the textual `"nan"` in ANY letter
case maps to zero; but the `Series.replace` in `load_transactions` only
replaces the exact strings `""`, `"nan"` and `"NaN"`, and `"NAN"` falls
through to `float("NAN")`, which parses to the floating NaN value, not
zero. -/
theorem C2_counterexample :
    cleanAmount "NAN" = some Amount.nan ∧
    cleanAmount "NAN" ≠ some (Amount.num 0) := by
  constructor
  · decide
  · decide

/-- C2, amended: the cleanup removes thousands-separator commas and maps
the empty string and the exact spellings `"nan"` and `"NaN"` to zero;
any remaining text is parsed by Python `float`, so other letter cases of
nan parse to the floating NaN value rather than zero.  The spec's
examples hold: `"1,234.50"` yields 1234.50, `""` yields 0.0 and `"nan"`
yields 0.0. -/
theorem C2_cleanup :
    cleanAmount "1,234.50" = some (Amount.num (1234.5 : ℚ)) ∧
    cleanAmount "" = some (Amount.num 0) ∧
    cleanAmount "nan" = some (Amount.num 0) ∧
    cleanAmount "NaN" = some (Amount.num 0) ∧
    (∀ s : String, cleanAmount (removeCommas s) = cleanAmount s) := by
  refine ⟨?_, by decide, by decide, by decide, ?_⟩
  · have h : cleanAmount "1,234.50" = some (Amount.num (mkRat 123450 100)) := by
      decide
    rw [h]
    simp only [Option.some.injEq, Amount.num.injEq]
    rw [Rat.mkRat_eq_divInt, Rat.divInt_eq_div]
    norm_num
  · intro s
    have hidem : removeCommas (removeCommas s) = removeCommas s := by
      unfold removeCommas
      simp [List.filter_filter]
    unfold cleanAmount
    rw [hidem]

/-- C3 (confirmed): after `categorize_transactions` runs, every row's
category is either `"Uncategorized"` or one of the store's keys. -/
theorem C3_category_invariant (cats : CatStore) (rows : List Row) (r : Row)
    (h : r ∈ categorize_transactions cats rows) :
    r.category = "Uncategorized" ∨ r.category ∈ cats.map Prod.fst := by
  rw [categorize_eq] at h
  obtain ⟨r', _, rfl⟩ := List.mem_map.1 h
  exact assignedCategory_mem cats r'.narration

/-- Witness for C3 at a concrete table and store. -/
theorem C3_witness :
    ({ r0 with category := "Food" } ∈ categorize_transactions cats0 [r0]) ∧
    ("Food" = "Uncategorized" ∨ "Food" ∈ cats0.map Prod.fst) :=
  ⟨by decide, C3_category_invariant cats0 [r0] { r0 with category := "Food" } (by decide)⟩

/-- C4 (confirmed): saving a category mapping with `save_categories` and
loading it back with `json.load` returns the same mapping — same keys in
the same order and, per key, the identical keyword list. -/
theorem C4_roundtrip (m : CatStore) :
    load_categories (save_categories m) = some m :=
  decodeStore_encodeStore m

/-- C5 (confirmed): with a single-category store, `categorize_transactions`
assigns the category exactly when the lower-cased, trimmed narration
equals the lower-cased, trimmed keyword — full-string equality, no
substring matching; and the keyword `"Amazon"` matches the narration
`"  amazon  "`. -/
theorem C5_exact_match :
    (∀ (kw : String) (r : Row),
        categorize_transactions [("Food", [kw])] [r] =
          [{ r with category :=
              if pyLowerStrip r.narration = pyLowerStrip kw then "Food"
              else "Uncategorized" }]) ∧
    (categorize_transactions [("Food", ["Amazon"])]
        [{ r0 with narration := "  amazon  " }]).map Row.category = ["Food"] := by
  constructor
  · intro kw r
    rw [categorize_eq]
    simp [assignedCategory, stepAssign, cleanNarration]
  · decide

/-- C6 (confirmed): on an existing category, `add_keyword_to_category`
strips the keyword; it returns false and leaves the state untouched when
the stripped keyword is empty or already present; otherwise it appends
the stripped keyword once at the end of the category's list, persists the
store, and returns true — and a second identical call returns false,
leaving exactly one occurrence. -/
theorem C6_add_keyword (category keyword : String) (st : PState)
    (kws : List String)
    (h : List.lookup category st.categories = some kws) :
    (pyStripStr keyword = "" ∨ pyStripStr keyword ∈ kws →
        add_keyword_to_category category keyword st = (st, .ok false)) ∧
    (pyStripStr keyword ≠ "" → pyStripStr keyword ∉ kws →
        (add_keyword_to_category category keyword st).2 = .ok true ∧
        (add_keyword_to_category category keyword st).1.categories =
          setCat st.categories category (kws ++ [pyStripStr keyword]) ∧
        List.lookup category
            (add_keyword_to_category category keyword st).1.categories =
          some (kws ++ [pyStripStr keyword]) ∧
        (add_keyword_to_category category keyword st).1.disk =
          save_categories
            (add_keyword_to_category category keyword st).1.categories ∧
        add_keyword_to_category category keyword
            (add_keyword_to_category category keyword st).1 =
          ((add_keyword_to_category category keyword st).1, .ok false) ∧
        (kws ++ [pyStripStr keyword]).count (pyStripStr keyword) = 1) := by
  constructor
  · intro hk
    by_cases hk0 : pyStripStr keyword = ""
    · unfold add_keyword_to_category
      simp [hk0]
    · rcases hk with hk | hk
      · exact absurd hk hk0
      · unfold add_keyword_to_category
        simp [hk0, h, hk]
  · intro hk0 hkmem
    have hres : add_keyword_to_category category keyword st =
        ({ categories :=
             setCat st.categories category (kws ++ [pyStripStr keyword]),
           disk := save_categories
             (setCat st.categories category (kws ++ [pyStripStr keyword])) },
         .ok true) := by
      unfold add_keyword_to_category
      simp [hk0, h, hkmem]
    have hlook : List.lookup category
        (setCat st.categories category (kws ++ [pyStripStr keyword])) =
        some (kws ++ [pyStripStr keyword]) :=
      lookup_setCat st.categories category (kws ++ [pyStripStr keyword]) kws h
    refine ⟨by rw [hres], by rw [hres], ?_, by rw [hres], ?_, ?_⟩
    · rw [hres]
      exact hlook
    · rw [hres]
      unfold add_keyword_to_category
      simp [hk0, hlook]
    · rw [List.count_append]
      rw [List.count_eq_zero.2 hkmem]
      simp

/-- Witness for C6: adding `" netflix "` to the empty `"Food"` category
of `stFood` appends `"netflix"`, persists, returns true, and a second
call returns false. -/
theorem C6_witness :
    (List.lookup "Food" stFood.categories = some []) ∧
    ((add_keyword_to_category "Food" " netflix " stFood).2 = .ok true ∧
      (add_keyword_to_category "Food" " netflix " stFood).1.categories =
        setCat stFood.categories "Food" ([] ++ [pyStripStr " netflix "]) ∧
      List.lookup "Food"
          (add_keyword_to_category "Food" " netflix " stFood).1.categories =
        some ([] ++ [pyStripStr " netflix "]) ∧
      (add_keyword_to_category "Food" " netflix " stFood).1.disk =
        save_categories
          (add_keyword_to_category "Food" " netflix " stFood).1.categories ∧
      add_keyword_to_category "Food" " netflix "
          (add_keyword_to_category "Food" " netflix " stFood).1 =
        ((add_keyword_to_category "Food" " netflix " stFood).1, .ok false) ∧
      ([] ++ [pyStripStr " netflix "]).count (pyStripStr " netflix ") = 1) :=
  ⟨by decide,
   (C6_add_keyword "Food" " netflix " stFood [] (by decide)).2
     (by decide) (by decide)⟩

/-- C7, counterexample.  The claim says every call with a missing
category fails with an error; but `add_keyword_to_category`'s
`if keyword and ...` short-circuits on the falsy stripped keyword, so a
blank keyword on the missing category `"Food"` returns false with no
error and no state change — the dict subscript that would raise never
runs. -/
theorem C7_counterexample :
    add_keyword_to_category "Food" "   " stDefault = (stDefault, .ok false) ∧
    (add_keyword_to_category "Food" "   " stDefault).2 ≠ .error .keyError ∧
    (add_keyword_to_category "Food" "   " stDefault).2 ≠
      .error .invalidInput := by
  refine ⟨rfl, ?_, ?_⟩ <;>
    · rw [show (add_keyword_to_category "Food" "   " stDefault).2 =
          .ok false from rfl]
      intro hc
      cases hc

/-- C7, amended: on a category absent from the store,
`add_keyword_to_category` raises the `KeyError` of the dict subscript
only when the stripped keyword is non-empty; a keyword that strips to
empty short-circuits and returns false.  In both cases the in-memory
store and the persisted state are unchanged. -/
theorem C7_missing_category (category keyword : String) (st : PState)
    (h : List.lookup category st.categories = none) :
    add_keyword_to_category category keyword st =
      (st, if pyStripStr keyword = "" then .ok false
           else .error .keyError) := by
  unfold add_keyword_to_category
  by_cases hk : pyStripStr keyword = "" <;> simp [hk, h]

/-- Witness for C7's amended theorem at a concrete missing category. -/
theorem C7_witness :
    List.lookup "Food" stDefault.categories = none ∧
    add_keyword_to_category "Food" "netflix" stDefault =
      (stDefault, .error .keyError) :=
  ⟨by decide, C7_missing_category "Food" "netflix" stDefault (by decide)⟩

/-- C8 (confirmed): the summary groups rows by category (pandas sorts the
group keys), sums the chosen amount column per group, and sorts the
(category, total) pairs by total descending; on the spec's example it
returns `[("Food", 150), ("Transport", 30)]` in that order.  The general
parts: the summary is a permutation of the per-category group totals and
is sorted by the descending-total relation. -/
theorem C8_summary :
    summarize ex8Rows Row.withdrawal =
      [("Food", Amount.num 150), ("Transport", Amount.num 30)] ∧
    (∀ (rows : List Row) (amt : Row → Amount),
        List.Perm (summarize rows amt) (groupTotals rows amt)) ∧
    (∀ (rows : List Row) (amt : Row → Amount),
        List.Sorted totalsDesc (summarize rows amt)) := by
  refine ⟨by decide, ?_, ?_⟩
  · intro rows amt
    exact List.perm_insertionSort totalsDesc (groupTotals rows amt)
  · intro rows amt
    exact List.sorted_insertionSort totalsDesc (groupTotals rows amt)

/-- C9, counterexample.  The claim says `add_category` fails with
`InvalidInput` when the name is already present; the inline code of
`main` only checks `if new_category not in st.session_state.categories`
and otherwise does nothing: on the present name `"Food"` it silently
no-ops — no exception, no state change — where the spec-shaped contract
`add_category_contract` demands `InvalidInput`. -/
theorem C9_counterexample :
    add_category "Food" stFood = (stFood, false) ∧
    add_category_contract "Food" stFood = .error .invalidInput :=
  ⟨rfl, rfl⟩

/-- C9, amended: an empty or already-present name is silently ignored —
`add_category` returns false and changes nothing, raising no error;
otherwise it inserts the name with an empty keyword list at the end,
persists, and returns true; calling it again with the same name returns
false and the store holds exactly one entry for the name. -/
theorem C9_add_category :
    (∀ (name : String) (st : PState),
        name = "" ∨ name ∈ catKeys st.categories →
          add_category name st = (st, false)) ∧
    (∀ (name : String) (st : PState),
        name ≠ "" → name ∉ catKeys st.categories →
          add_category name st =
            ({ categories := st.categories ++ [(name, [])],
               disk := save_categories (st.categories ++ [(name, [])]) },
             true) ∧
          add_category name
              { categories := st.categories ++ [(name, [])],
                disk := save_categories (st.categories ++ [(name, [])]) } =
            ({ categories := st.categories ++ [(name, [])],
               disk := save_categories (st.categories ++ [(name, [])]) },
             false) ∧
          (catKeys (st.categories ++ [(name, [])])).count name = 1) := by
  constructor
  · intro name st hname
    by_cases h0 : name = ""
    · unfold add_category
      simp [h0]
    · rcases hname with hname | hname
      · exact absurd hname h0
      · unfold add_category
        simp [h0, hname]
  · intro name st h0 hmem
    have hkeys : catKeys (st.categories ++ [(name, [])]) =
        catKeys st.categories ++ [name] := by
      unfold catKeys
      rw [List.map_append]
      rfl
    refine ⟨?_, ?_, ?_⟩
    · unfold add_category
      simp [h0, hmem]
    · unfold add_category
      have : name ∈ catKeys (st.categories ++ [(name, [])]) := by
        rw [hkeys]
        simp
      simp [h0, this]
    · rw [hkeys, List.count_append]
      rw [List.count_eq_zero.2 hmem]
      simp

/-- Witness for C9's amended theorem: the empty name and the duplicate
`"Food"` are silently ignored on `stFood`, and the fresh name
`"Transport"` is inserted once, persists, then is rejected on repeat. -/
theorem C9_witness :
    add_category "" stFood = (stFood, false) ∧
    add_category "Food" stFood = (stFood, false) ∧
    (add_category "Transport" stFood =
        ({ categories := stFood.categories ++ [("Transport", [])],
           disk := save_categories (stFood.categories ++ [("Transport", [])]) },
         true) ∧
      add_category "Transport"
          { categories := stFood.categories ++ [("Transport", [])],
            disk := save_categories (stFood.categories ++ [("Transport", [])]) } =
        ({ categories := stFood.categories ++ [("Transport", [])],
           disk := save_categories (stFood.categories ++ [("Transport", [])]) },
         false) ∧
      (catKeys (stFood.categories ++ [("Transport", [])])).count "Transport" = 1) :=
  ⟨C9_add_category.1 "" stFood (Or.inl rfl),
   C9_add_category.1 "Food" stFood (Or.inr (by decide)),
   C9_add_category.2 "Transport" stFood (by decide) (by decide)⟩

/-- C10 (confirmed): `categorize_transactions` only rewrites the category
field — the date, narration, withdrawal and deposit of every row, the
row count and the row order are unchanged.  The category store is only
read, never written: in this embedding `categorize_transactions` is a
pure function of the store that returns only the table. -/
theorem C10_frame (cats : CatStore) (rows : List Row) :
    (categorize_transactions cats rows).map
        (fun r => (r.date, r.narration, r.withdrawal, r.deposit)) =
      rows.map (fun r => (r.date, r.narration, r.withdrawal, r.deposit)) ∧
    (categorize_transactions cats rows).length = rows.length := by
  rw [categorize_eq]
  constructor
  · rw [List.map_map]
    rfl
  · rw [List.length_map]

end PersonalFinance
